import Mathlib

/-!
Verification development for the youtube-export archival pipeline (s3.py).

The code of s3.py is shallowly embedded below.  Storage backends (boto
buckets, archive.org HTTP endpoints) are external collaborators and are
represented by their observable behaviour: bucket listings are lists of
key names (with last-modified timestamps where the code reads them), a
put attempt is a function from attempt index to outcome, a HEAD check is
a function from attempt index to outcome, and a verification probe is a
boolean predicate on destination names.  Timestamps are seconds as
integers; the code's `datetime.utcnow() - modification_date <
timedelta(hours=1)` becomes an integer comparison against 3600.
-/

namespace S3

/-! ## Key classification (re_video_key_name, re_legacy_video_key_name)

The source uses Python 2 byte-string regexes:

  re_video_key_name        = `([\w-]+)\.(\w+)/`     (used with re.match)
  re_legacy_video_key_name = `([\w-]+)/(.*)$`       (used with re.match)

For byte strings, `\w` is `[A-Za-z0-9_]`.  `re.match` anchors at the
start only.  Both regexes open with a greedy `([\w-]+)` character-class
repetition; because the class excludes the following literal (`.` resp.
`/`), the backtracking engine can only succeed with the maximal run:
after shrinking group 1 the next character is still a class character,
never the required literal.  Likewise `(\w+)` in the first regex must be
the maximal word run, since shrinking it leaves a word character where
`/` is required.  The embeddings below therefore use maximal munch
(takeWhile/dropWhile), which is extensionally the regex behaviour.

`(.*)$` in the legacy regex: `.` does not match a newline and `$`
matches at the end of the string or just before one trailing final
newline, so the remainder matches iff it is newline-free (group 2 is the
remainder) or of the form body ++ "\n" with body newline-free (group 2
is body).  `dotStarDollar` embeds exactly that.
-/

/-- Python 2 byte-string regex class \w, i.e. [A-Za-z0-9_]. -/
def isWordChar (c : Char) : Bool := c.isAlphanum || c == '_'

/-- Regex class [\w-]. -/
def isWordDash (c : Char) : Bool := isWordChar c || c == '-'

/-- Semantics of the regex fragment `(.*)$` (no DOTALL, no MULTILINE)
applied to the remainder of the subject: yields the captured group when
the fragment matches the whole remainder, none otherwise. -/
def dotStarDollar (r : List Char) : Option (List Char) :=
  let body := r.takeWhile (fun c => !(c == '\n'))
  let tail := r.dropWhile (fun c => !(c == '\n'))
  if tail = [] ∨ tail = ['\n'] then some body else none

/-- re.match of re_video_key_name = `([\w-]+)\.(\w+)/` on a key given as
a character list: some (group1, group2, rest-after-match) or none. -/
def matchVideoKeyList (cs : List Char) : Option (List Char × List Char × List Char) :=
  let idPart := cs.takeWhile isWordDash
  let r1 := cs.dropWhile isWordDash
  if idPart = [] then none
  else if r1.head? ≠ some '.' then none
  else
    let r2 := r1.tail
    let fmtPart := r2.takeWhile isWordChar
    let r3 := r2.dropWhile isWordChar
    if fmtPart = [] then none
    else if r3.head? ≠ some '/' then none
    else some (idPart, fmtPart, r3.tail)

/-- re.match of re_video_key_name on a key string.  The third component
is the remainder of the key after the matched text `group()`, which is
how upload_converted_to_archive computes `destination_name =
key.name[len(video_prefix):]`. -/
def matchVideoKey (s : String) : Option (String × String × String) :=
  (matchVideoKeyList s.toList).map (fun t => (String.mk t.1, String.mk t.2.1, String.mk t.2.2))

/-- re.match of re_legacy_video_key_name = `([\w-]+)/(.*)$` on a key
given as a character list: some (group1, group2) or none. -/
def matchLegacyKeyList (cs : List Char) : Option (List Char × List Char) :=
  let idPart := cs.takeWhile isWordDash
  let r1 := cs.dropWhile isWordDash
  if idPart = [] then none
  else if r1.head? ≠ some '/' then none
  else (dotStarDollar r1.tail).map (fun rel => (idPart, rel))

/-- re.match of re_legacy_video_key_name on a key string. -/
def matchLegacyKey (s : String) : Option (String × String) :=
  (matchLegacyKeyList s.toList).map (fun t => (String.mk t.1, String.mk t.2))

/-- Reconstruction of a current-style key from the classified triple
(video id, format, relative path). -/
def rebuildKey (t : String × String × String) : String :=
  t.1 ++ "." ++ t.2.1 ++ "/" ++ t.2.2

/-! ## Readiness gate (s3.py lines 141-144) -/

/-- Freshness window of the readiness check: timedelta(hours=1) in
seconds. -/
def freshnessWindowSeconds : Int := 3600

/-- Readiness predicate of upload_converted_to_archive: the object is
ready unless `utcnow() - modification_date < timedelta(hours=1)`.
`now` and `lastModified` are seconds. -/
def is_ready (now lastModified : Int) : Bool :=
  !(decide (now - lastModified < freshnessWindowSeconds))

/-! ## Upload retry loop (s3.py lines 194-201)

`for attempt in xrange(10): try: set_contents_from_file; break
 except BotoServerError: log
 else: raise Exception("Gave up publish attempt due to server errors")`

One put attempt either succeeds, raises BotoServerError (the transient
server-error class, caught and retried), or raises some other exception
(propagates, immediately fatal).  The attempt sequence is abstracted as
a function from the 0-based attempt index to its outcome. -/

/-- Outcome of one `dest_key.set_contents_from_file` attempt. -/
inductive PutOutcome where
  | ok
  | transientServerError
  | otherError
  deriving DecidableEq

/-- Result of the per-object upload retry loop. -/
inductive UploadResult where
  | uploaded
  | serverErrorExhausted
  | fatalOther
  deriving DecidableEq

/-- Retry loop body: `attempt` is the next attempt index, `fuel` the
number of loop iterations left.  Returns the result and the number of
put attempts actually made. -/
def uploadGo (put : Nat → PutOutcome) (attempt fuel : Nat) : UploadResult × Nat :=
  match fuel with
  | 0 => (.serverErrorExhausted, 0)
  | f + 1 =>
    match put attempt with
    | .ok => (.uploaded, 1)
    | .transientServerError =>
      let r := uploadGo put (attempt + 1) f
      (r.1, r.2 + 1)
    | .otherError => (.fatalOther, 1)

/-- The upload retry loop of s3.py: 10 attempts, starting at index 0. -/
def uploadWithRetry (put : Nat → PutOutcome) : UploadResult × Nat :=
  uploadGo put 0 10

/-! ## verify_archive_upload (s3.py lines 218-240)

`while c_retries < 5: try HEAD; return code == 200
 except HTTPError: c_retries += 1; time.sleep(10)
 ...
 return False`

urlopen either returns a response (with `.code`) or raises
urllib2.HTTPError (the caught protocol-error class).  The HEAD attempt
sequence is abstracted as a function from 0-based attempt index to
outcome. -/

/-- Outcome of one HEAD request made by verify_archive_upload. -/
inductive HeadOutcome where
  | status (code : Nat)
  | httpError
  deriving DecidableEq

/-- Loop body of verify_archive_upload: `cRetries` is the current retry
counter (also the next attempt index), `fuel` = allowed - cRetries.
Returns (result, attempts made, durations in seconds of the sleep calls
made). -/
def verifyGo (head : Nat → HeadOutcome) (cRetries fuel : Nat) : Bool × Nat × List Nat :=
  match fuel with
  | 0 => (false, 0, [])
  | f + 1 =>
    match head cRetries with
    | .status code => (code == 200, 1, [])
    | .httpError =>
      let r := verifyGo head (cRetries + 1) f
      (r.1, r.2.1 + 1, 10 :: r.2.2)

/-- verify_archive_upload of s3.py: c_retries_allowed = 5, counter
starts at 0.  Total function: every HEAD outcome is either a returned
status or the caught HTTPError, so the loop never escapes with an
exception. -/
def verify_archive_upload (head : Nat → HeadOutcome) : Bool × Nat × List Nat :=
  verifyGo head 0 5

/-! ## upload_converted_to_archive (s3.py lines 121-216)

The pipeline for one video id.  Inputs abstracted from the environment:
- `listing`: the keys (name and last-modified seconds) returned by
  `converted_bucket.list(youtube_id)`;
- `now`: `datetime.utcnow()` in seconds;
- `put`: per destination name, the outcome of each upload attempt;
- `verify`: the verdict of verify_archive_upload per destination name.

Each `return False` site and each uncaught exception of the source is
mapped to its own outcome constructor, after the failure taxonomy of
the spec. -/

/-- One entry of the converted-bucket listing. -/
structure SrcKey where
  name : String
  lastModified : Int
  deriving DecidableEq

/-- Per-video-id outcome of upload_converted_to_archive.  `success` is
`return True` (line 216); `readinessBlocked` is the readiness
`return False` (line 144); `sourceMissing` is the missing-format
`return False` (line 152); `verificationFailed` is the verification
`return False` (line 214); `serverErrorExhausted` is the
`raise Exception(...)` (line 201); `fatalUploadError` is a non-Boto
exception escaping the put; `assertionFailed` is a failed `assert`. -/
inductive TransferOutcome where
  | success
  | readinessBlocked
  | assertionFailed
  | sourceMissing
  | serverErrorExhausted
  | fatalUploadError
  | verificationFailed
  deriving DecidableEq

/-- Observable trace of one upload_converted_to_archive run: the
outcome, the destination names successfully pushed (uploaded_filenames,
in order, as far as the run got), and the destination names passed to
verify_archive_upload (in order). -/
structure TransferTrace where
  result : TransferOutcome
  uploaded : List String
  verifyCalls : List String
  deriving DecidableEq

/-- Result of the discovery loop (lines 131-147). -/
inductive DiscoverResult where
  | blocked
  | assertFail
  | ok (pairs : List (String × SrcKey))
  deriving DecidableEq

/-- Discovery loop: classify each listed key; skip keys that do not
match re_video_key_name (legacy keys and unrecognized keys are only
logged); assert group(1) == youtube_id; abort returning False at the
first key whose modification date is within the freshness window;
otherwise collect (format, key) in listing order, which is the content
of `source_keys_for_format`. -/
def discoverKeys (yid : String) (now : Int) : List SrcKey → DiscoverResult
  | [] => .ok []
  | k :: rest =>
    match matchVideoKey k.name with
    | none => discoverKeys yid now rest
    | some (id, fmt, _) =>
      if id ≠ yid then .assertFail
      else if is_ready now k.lastModified then
        match discoverKeys yid now rest with
        | .ok ps => .ok ((fmt, k) :: ps)
        | r => r
      else .blocked

/-- `source_keys_for_format[f]`: the discovered keys of format f, in
insertion order. -/
def keysForFormat (pairs : List (String × SrcKey)) (f : String) : List SrcKey :=
  (pairs.filter (fun p => p.1 == f)).map (fun p => p.2)

/-- Upload loop (lines 163-204) over the selected (format, key) pairs.
Re-matches each key, performs the source asserts (group(1) ==
youtube_id, group(2) == format, no '/' in the destination name; the
`startswith` assert always holds since the matched text is a prefix by
construction), runs the retry loop, and accumulates uploaded_filenames.
Returns (error if the loop aborted, names uploaded before that). -/
def uploadStage (yid : String) (put : String → Nat → PutOutcome) :
    List (String × SrcKey) → Option TransferOutcome × List String
  | [] => (none, [])
  | (fmt, k) :: rest =>
    match matchVideoKey k.name with
    | none => (some .assertionFailed, [])
    | some (id, f2, path) =>
      if id ≠ yid then (some .assertionFailed, [])
      else if f2 ≠ fmt then (some .assertionFailed, [])
      else if path.toList.contains '/' then (some .assertionFailed, [])
      else
        match (uploadWithRetry (put path)).1 with
        | .uploaded =>
          let r := uploadStage yid put rest
          (r.1, path :: r.2)
        | .serverErrorExhausted => (some .serverErrorExhausted, [])
        | .fatalOther => (some .fatalUploadError, [])

/-- Verification loop (lines 209-214): verify each uploaded name in
order; on the first failure return False without checking the rest.
Returns (overall verdict, the names actually passed to
verify_archive_upload). -/
def runVerify (verify : String → Bool) : List String → Bool × List String
  | [] => (true, [])
  | n :: rest =>
    if verify n then
      let r := runVerify verify rest
      (r.1, n :: r.2)
    else (false, [n])

/-- Fixed propagation delay before verification (line 207), seconds. -/
def propagationDelaySeconds : Nat := 10

/-- upload_converted_to_archive: discovery with readiness gate, then
the missing-format check (lines 149-152), then the upload loop, the
propagation delay, and the verification loop. -/
def upload_converted_to_archive (yid : String) (fmts : List String)
    (listing : List SrcKey) (now : Int) (put : String → Nat → PutOutcome)
    (verify : String → Bool) : TransferTrace :=
  match discoverKeys yid now listing with
  | .blocked => ⟨.readinessBlocked, [], []⟩
  | .assertFail => ⟨.assertionFailed, [], []⟩
  | .ok pairs =>
    if fmts.all (fun f => !(keysForFormat pairs f).isEmpty) then
      let sel := fmts.flatMap (fun f => (keysForFormat pairs f).map (fun k => (f, k)))
      match uploadStage yid put sel with
      | (some r, names) => ⟨r, names, []⟩
      | (none, names) =>
        let v := runVerify verify names
        ⟨if v.1 then .success else .verificationFailed, names, v.2⟩
    else ⟨.sourceMissing, [], []⟩

/-! ## Legacy content (s3.py lines 92-109) -/

/-- list_legacy_mp4_videos: the group(1) of every listed key matching
re_legacy_video_key_name (the source collects them into a set; here the
list of matches, membership being what matters). -/
def list_legacy_mp4_videos (names : List String) : List String :=
  names.filterMap (fun k => (matchLegacyKey k).map (fun t => t.1))

/-- An operation applied to a bucket.  copy_legacy_content_to_new_location
only ever emits copyTo operations (boto `key.copy`); deleteKey is part of
the vocabulary so that "copy, not move" is expressible. -/
inductive BucketOp where
  | copyTo (srcKey destBucket destKey : String) (preserveAcl : Bool)
  | deleteKey (key : String)
  deriving DecidableEq

/-- Name of the source/destination bucket of the legacy migration. -/
def convertedBucketName : String := "KA-youtube-converted"

/-- Body of copy_legacy_content_to_new_location over the keys returned
by the prefix listing.  none models an AssertionError (failed `assert
legacy_match is not None` or `assert legacy_match.group(1) ==
youtube_id`): the run dies before completing its copies. -/
def copyLegacyGo (yid : String) : List String → Option (List BucketOp)
  | [] => some []
  | k :: rest =>
    match matchLegacyKey k with
    | none => none
    | some (id, rel) =>
      if id ≠ yid then none
      else (copyLegacyGo yid rest).map
        (fun ops => BucketOp.copyTo k convertedBucketName (yid ++ ".mp4/" ++ rel) true :: ops)

/-- copy_legacy_content_to_new_location: iterate over
`converted_bucket.list(prefix=youtube_id + "/")`, modelled as the keys
of the bucket filtered to those whose character sequence starts with
that text. -/
def copy_legacy_content_to_new_location (yid : String) (bucketKeys : List String) :
    Option (List BucketOp) :=
  copyLegacyGo yid (bucketKeys.filter (fun k => ((yid ++ "/").toList).isPrefixOf k.toList))

/-! ## Format inventory (s3.py lines 76-90, 111-119)

list_converted_formats builds a defaultdict(set) mapping youtube id to
the set of formats seen in the converted bucket listing; a lookup of an
absent id yields the empty set.  That mapping, viewed extensionally, is
the function `convertedFormatSet names`.  DOWNLOADABLE_FORMATS lives in
util.py, outside this file's source; the claims do not depend on its
value, so it is the parameter `required` below. -/

/-- Contribution of one listed key to the format set of `id`: its
group(2) when it matches re_video_key_name with group(1) = id. -/
def formatForId (id : String) (k : String) : Option String :=
  match matchVideoKey k with
  | some t => if t.1 = id then some t.2.1 else none
  | none => none

/-- Formats of `id` found in the listing (with multiplicity). -/
def convertedFormatsList (names : List String) (id : String) : List String :=
  names.filterMap (formatForId id)

/-- list_converted_formats as a function: the defaultdict(set) lookup,
empty for an id with no matching key. -/
def convertedFormatSet (names : List String) (id : String) : Finset String :=
  (convertedFormatsList names id).toFinset

/-- `DOWNLOADABLE_FORMATS - converted_formats[video["youtube_id"]]`. -/
def missingFor (required : Finset String) (names : List String) (id : String) : Finset String :=
  required \ convertedFormatSet names id

/-- Python dict assignment d[k] = v: overwrite in place if the key
exists, else append. -/
def dictInsert (k : String) (v : Finset String) :
    List (String × Finset String) → List (String × Finset String)
  | [] => [(k, v)]
  | (k', v') :: rest => if k' = k then (k, v) :: rest else (k', v') :: dictInsert k v rest

/-- Python dict lookup. -/
def dictLookup (k : String) : List (String × Finset String) → Option (Finset String)
  | [] => none
  | (k', v) :: rest => if k' = k then some v else dictLookup k rest

/-- Loop body of list_missing_converted_formats for one catalog video:
`if "youtube_id" not in video: continue` then
`missing[id] = DOWNLOADABLE_FORMATS - converted_formats[id]`.  A video
is its optional youtube id. -/
def stepVideo (required : Finset String) (names : List String)
    (acc : List (String × Finset String)) : Option String → List (String × Finset String)
  | none => acc
  | some id => dictInsert id (missingFor required names id) acc

/-- list_missing_converted_formats: fold over the library (a list of
playlists, each a list of videos). -/
def list_missing_converted_formats (required : Finset String) (names : List String)
    (library : List (List (Option String))) : List (String × Finset String) :=
  library.foldl (fun acc vids => vids.foldl (stepVideo required names) acc) []

/-! ## Helper lemmas -/

theorem takeWhile_append_stop {p : Char → Bool} (l : List Char) (c : Char) (t : List Char)
    (hl : ∀ x ∈ l, p x = true) (hc : p c = false) :
    (l ++ c :: t).takeWhile p = l := by
  induction l with
  | nil => simp [List.takeWhile_cons, hc]
  | cons a l ih =>
    have ha : p a = true := hl a (List.mem_cons_self a l)
    simp [List.takeWhile_cons, ha, ih (fun x hx => hl x (List.mem_cons_of_mem a hx))]

theorem dropWhile_append_stop {p : Char → Bool} (l : List Char) (c : Char) (t : List Char)
    (hl : ∀ x ∈ l, p x = true) (hc : p c = false) :
    (l ++ c :: t).dropWhile p = c :: t := by
  induction l with
  | nil => simp [List.dropWhile_cons, hc]
  | cons a l ih =>
    have ha : p a = true := hl a (List.mem_cons_self a l)
    simp [List.dropWhile_cons, ha, ih (fun x hx => hl x (List.mem_cons_of_mem a hx))]

theorem takeWhile_of_all {p : Char → Bool} : ∀ l : List Char,
    (∀ c ∈ l, p c = true) → l.takeWhile p = l := by
  intro l
  induction l with
  | nil => intro _; rfl
  | cons a l ih =>
    intro h
    have ha : p a = true := h a (List.mem_cons_self a l)
    simp [List.takeWhile_cons, ha, ih (fun x hx => h x (List.mem_cons_of_mem a hx))]

theorem dropWhile_of_all {p : Char → Bool} : ∀ l : List Char,
    (∀ c ∈ l, p c = true) → l.dropWhile p = [] := by
  intro l
  induction l with
  | nil => intro _; rfl
  | cons a l ih =>
    intro h
    have ha : p a = true := h a (List.mem_cons_self a l)
    simp [List.dropWhile_cons, ha, ih (fun x hx => h x (List.mem_cons_of_mem a hx))]

theorem string_mk_toList (s : String) : String.mk s.toList = s := rfl

theorem uploadGo_congr (put put' : Nat → PutOutcome) :
    ∀ (fuel a : Nat), (∀ i, a ≤ i → i < a + fuel → put i = put' i) →
    uploadGo put a fuel = uploadGo put' a fuel := by
  intro fuel
  induction fuel with
  | zero => intro a _; rfl
  | succ f ih =>
    intro a h
    have ha : put a = put' a := h a (le_refl a) (by omega)
    have hrec := ih (a + 1) (fun i h1 h2 => h i (by omega) (by omega))
    simp only [uploadGo, ha, hrec]

theorem verifyGo_attempts_le (head : Nat → HeadOutcome) :
    ∀ (fuel c : Nat), (verifyGo head c fuel).2.1 ≤ fuel := by
  intro fuel
  induction fuel with
  | zero => intro c; simp [verifyGo]
  | succ f ih =>
    intro c
    simp only [verifyGo]
    cases head c with
    | status code => simp
    | httpError =>
      have := ih (c + 1)
      simp
      omega

/-! ## Claim theorems -/

/-- Claim C1: for one object's upload, if the put fails with the
transient server-error class (BotoServerError) on exactly the first 9
attempts and succeeds on the 10th, the retry loop reports success; if
all 10 attempts fail with the transient class, it aborts with
ServerErrorExhausted (the raised exception, fatal for the video id)
after exactly 10 attempts, and the outcome never depends on any attempt
beyond the 10th (no 11th attempt is made). -/
theorem c1_upload_retry (put : Nat → PutOutcome) :
    ((∀ i, i < 9 → put i = .transientServerError) → put 9 = .ok →
      uploadWithRetry put = (.uploaded, 10)) ∧
    ((∀ i, i < 10 → put i = .transientServerError) →
      uploadWithRetry put = (.serverErrorExhausted, 10)) ∧
    (∀ put' : Nat → PutOutcome, (∀ i, i < 10 → put i = put' i) →
      uploadWithRetry put = uploadWithRetry put') := by
  refine ⟨?_, ?_, ?_⟩
  · intro h h9
    simp [uploadWithRetry, uploadGo, h 0 (by norm_num), h 1 (by norm_num), h 2 (by norm_num),
      h 3 (by norm_num), h 4 (by norm_num), h 5 (by norm_num), h 6 (by norm_num),
      h 7 (by norm_num), h 8 (by norm_num), h9]
  · intro h
    simp [uploadWithRetry, uploadGo, h 0 (by norm_num), h 1 (by norm_num), h 2 (by norm_num),
      h 3 (by norm_num), h 4 (by norm_num), h 5 (by norm_num), h 6 (by norm_num),
      h 7 (by norm_num), h 8 (by norm_num), h 9 (by norm_num)]
  · intro put' h
    exact uploadGo_congr put put' 10 0 (fun i _ h2 => h i (by omega))

/-- Witness for C1 at concrete put sequences. -/
theorem c1_upload_retry_witness :
    uploadWithRetry (fun i => if i < 9 then .transientServerError else .ok) = (.uploaded, 10) ∧
    uploadWithRetry (fun _ => .transientServerError) = (.serverErrorExhausted, 10) :=
  ⟨(c1_upload_retry _).1 (fun i hi => by simp [hi]) (by norm_num),
   (c1_upload_retry _).2.1 (fun _ _ => rfl)⟩

/-- Claim C2: verify_archive_upload makes at most 5 HEAD attempts;
on 5 consecutive protocol errors (HTTPError) it returns false after
exactly 5 attempts, each error followed by one fixed 10-second sleep
(so consecutive attempts are 10 seconds apart), with no uncaught
exception; if the 5th attempt returns status 200 it returns true. -/
theorem c2_verify_retry (head : Nat → HeadOutcome) :
    (verify_archive_upload head).2.1 ≤ 5 ∧
    ((∀ i, i < 5 → head i = .httpError) →
      verify_archive_upload head = (false, 5, [10, 10, 10, 10, 10])) ∧
    ((∀ i, i < 4 → head i = .httpError) → head 4 = .status 200 →
      verify_archive_upload head = (true, 5, [10, 10, 10, 10])) := by
  refine ⟨verifyGo_attempts_le head 5 0, ?_, ?_⟩
  · intro h
    simp [verify_archive_upload, verifyGo, h 0 (by norm_num), h 1 (by norm_num),
      h 2 (by norm_num), h 3 (by norm_num), h 4 (by norm_num)]
  · intro h h4
    simp [verify_archive_upload, verifyGo, h 0 (by norm_num), h 1 (by norm_num),
      h 2 (by norm_num), h 3 (by norm_num), h4]

/-- Witness for C2 at concrete HEAD sequences. -/
theorem c2_verify_retry_witness :
    verify_archive_upload (fun _ => .httpError) = (false, 5, [10, 10, 10, 10, 10]) ∧
    verify_archive_upload (fun i => if i < 4 then .httpError else .status 200) =
      (true, 5, [10, 10, 10, 10]) :=
  ⟨(c2_verify_retry _).2.1 (fun _ _ => rfl),
   (c2_verify_retry _).2.2 (fun i hi => by simp [hi]) (by norm_num)⟩

/-- Claim C4: an object whose last-modified timestamp equals the
current time is not ready; one whose last-modified is 2 hours (7200 s)
before the current time is ready; at the 1-hour boundary (difference
exactly 3600 s) the decision is fixed — the object counts as ready —
hence it is the same for every object at that boundary. -/
theorem c4_readiness :
    (∀ now : Int, is_ready now now = false) ∧
    (∀ now : Int, is_ready now (now - 7200) = true) ∧
    (∀ now lm : Int, now - lm = 3600 → is_ready now lm = true) := by
  refine ⟨fun now => ?_, fun now => ?_, fun now lm h => ?_⟩
  · simp [is_ready, freshnessWindowSeconds]
  · simp only [is_ready, freshnessWindowSeconds]
    simp only [Bool.not_eq_true', decide_eq_false_iff_not, not_lt]
    omega
  · simp only [is_ready, freshnessWindowSeconds, h]
    simp

/-- Witness for C4 at the exact 1-hour boundary. -/
theorem c4_readiness_witness :
    (3600 : Int) - 0 = 3600 ∧ is_ready 3600 0 = true :=
  ⟨by norm_num, c4_readiness.2.2 3600 0 (by norm_num)⟩

/-- Claim C6: for every well-formed current-style key id.fmt/path
(id a nonempty [\w-] run, fmt a nonempty \w run, path arbitrary) the
classifier recovers exactly the triple (id, fmt, path), and
reconstructing the key from the triple yields the original key. -/
theorem c6_classifier_roundtrip (id fmt path : String)
    (h1 : id.toList ≠ []) (h2 : ∀ c ∈ id.toList, isWordDash c = true)
    (h3 : fmt.toList ≠ []) (h4 : ∀ c ∈ fmt.toList, isWordChar c = true) :
    matchVideoKey (id ++ "." ++ fmt ++ "/" ++ path) = some (id, fmt, path) ∧
    rebuildKey (id, fmt, path) = id ++ "." ++ fmt ++ "/" ++ path := by
  refine ⟨?_, rfl⟩
  have hlist : (id ++ "." ++ fmt ++ "/" ++ path).toList
      = id.toList ++ '.' :: (fmt.toList ++ '/' :: path.toList) := by
    simp [String.toList, String.data_append]
  have htw : (id.toList ++ '.' :: (fmt.toList ++ '/' :: path.toList)).takeWhile isWordDash
      = id.toList := takeWhile_append_stop _ _ _ h2 (by decide)
  have hdw : (id.toList ++ '.' :: (fmt.toList ++ '/' :: path.toList)).dropWhile isWordDash
      = '.' :: (fmt.toList ++ '/' :: path.toList) := dropWhile_append_stop _ _ _ h2 (by decide)
  have htw2 : (fmt.toList ++ '/' :: path.toList).takeWhile isWordChar = fmt.toList :=
    takeWhile_append_stop _ _ _ h4 (by decide)
  have hdw2 : (fmt.toList ++ '/' :: path.toList).dropWhile isWordChar = '/' :: path.toList :=
    dropWhile_append_stop _ _ _ h4 (by decide)
  simp only [matchVideoKey, matchVideoKeyList, hlist, htw, hdw, List.head?_cons, List.tail_cons]
  simp only [htw2, hdw2, List.head?_cons, List.tail_cons]
  rw [if_neg h1]
  rw [if_neg (show ¬(some '.' ≠ some '.') by simp)]
  rw [if_neg h3]
  rw [if_neg (show ¬(some '/' ≠ some '/') by simp)]
  simp only [Option.map_some']
  rw [string_mk_toList, string_mk_toList, string_mk_toList]

/-- Witness for C6 at a concrete well-formed key. -/
theorem c6_classifier_roundtrip_witness :
    matchVideoKey ("abc" ++ "." ++ "mp4" ++ "/" ++ "f1") = some ("abc", "mp4", "f1") ∧
    rebuildKey ("abc", "mp4", "f1") = "abc" ++ "." ++ "mp4" ++ "/" ++ "f1" :=
  c6_classifier_roundtrip "abc" "mp4" "f1" (by decide) (by decide) (by decide) (by decide)

theorem video_isSome_head (cs : List Char) (h : (matchVideoKeyList cs).isSome = true) :
    (cs.dropWhile isWordDash).head? = some '.' := by
  simp only [matchVideoKeyList] at h
  split_ifs at h with h1 h2 h3 h4 <;> try simp at h
  exact not_not.mp h2

/-- Claim C9: the current-format pattern and the legacy pattern are
mutually exclusive (no key matches both, since an id segment cannot
contain a dot); consequently every video id returned by
list_legacy_mp4_videos comes from a key that the current-format
pattern does not match. -/
theorem c9_pattern_exclusivity :
    (∀ cs : List Char, (matchVideoKeyList cs).isSome = true → matchLegacyKeyList cs = none) ∧
    (∀ (names : List String) (id : String), id ∈ list_legacy_mp4_videos names →
      ∃ k ∈ names, (∃ rel, matchLegacyKey k = some (id, rel)) ∧ matchVideoKey k = none) := by
  have excl : ∀ cs : List Char, (matchVideoKeyList cs).isSome = true →
      matchLegacyKeyList cs = none := by
    intro cs h
    have hd := video_isSome_head cs h
    simp only [matchLegacyKeyList]
    split_ifs with h1 h2
    · rfl
    · rfl
    · have h2' := not_not.mp h2
      rw [hd] at h2'
      exact absurd h2' (by decide)
  refine ⟨excl, ?_⟩
  intro names id hmem
  simp only [list_legacy_mp4_videos, List.mem_filterMap, Option.map_eq_some'] at hmem
  obtain ⟨k, hk, t, hmt, ht1⟩ := hmem
  have hleg : (matchLegacyKeyList k.toList).isSome = true := by
    simp only [matchLegacyKey] at hmt
    cases hml : matchLegacyKeyList k.toList with
    | none => rw [hml] at hmt; simp at hmt
    | some u => simp
  have hvid : matchVideoKeyList k.toList = none := by
    by_contra hn
    have hs : (matchVideoKeyList k.toList).isSome = true := Option.ne_none_iff_isSome.mp hn
    rw [excl k.toList hs] at hleg
    simp at hleg
  refine ⟨k, hk, ⟨t.2, ?_⟩, ?_⟩
  · rw [hmt]
    rw [← ht1]
  · simp only [matchVideoKey, hvid, Option.map_none']

/-- Witness for C9 at a concrete key matching the current pattern. -/
theorem c9_pattern_exclusivity_witness :
    (matchVideoKeyList ("a.b/x".toList)).isSome = true ∧
    matchLegacyKeyList ("a.b/x".toList) = none :=
  ⟨by decide, c9_pattern_exclusivity.1 ("a.b/x".toList) (by decide)⟩

theorem discoverKeys_blocked (yid : String) (now : Int) :
    ∀ listing : List SrcKey,
    (∀ k ∈ listing, (matchVideoKey k.name).all (fun t => t.1 == yid) = true) →
    (∃ k ∈ listing, (matchVideoKey k.name).isSome = true ∧
      is_ready now k.lastModified = false) →
    discoverKeys yid now listing = .blocked := by
  intro listing
  induction listing with
  | nil => intro _ h; simp at h
  | cons k rest ih =>
    intro hids hfresh
    have hidr : ∀ k' ∈ rest, (matchVideoKey k'.name).all (fun t => t.1 == yid) = true :=
      fun k' h' => hids k' (List.mem_cons_of_mem k h')
    cases hm : matchVideoKey k.name with
    | none =>
      simp only [discoverKeys, hm]
      apply ih hidr
      rcases hfresh with ⟨k', hk', hsome, hnr⟩
      rcases List.mem_cons.mp hk' with heq | hk'r
      · subst heq; rw [hm] at hsome; simp at hsome
      · exact ⟨k', hk'r, hsome, hnr⟩
    | some t =>
      obtain ⟨id, fmt, rel⟩ := t
      have hid : id = yid := by
        have hall := hids k (List.mem_cons_self k rest)
        rw [hm] at hall
        simpa using hall
      subst hid
      simp only [discoverKeys, hm, ne_eq, not_true_eq_false, if_false, ite_not]
      cases hr : is_ready now k.lastModified with
      | false => simp
      | true =>
        simp only [Bool.true_eq_false, if_false]
        have hrest : discoverKeys id now rest = .blocked := by
          apply ih hidr
          rcases hfresh with ⟨k', hk', hsome, hnr⟩
          rcases List.mem_cons.mp hk' with heq | hk'r
          · subst heq; rw [hr] at hnr; simp at hnr
          · exact ⟨k', hk'r, hsome, hnr⟩
        rw [hrest]
        simp

/-- Claim C5: when some discovered (current-format) object of the video
id is not ready, upload_converted_to_archive aborts with
ReadinessBlocked, uploads nothing and verifies nothing — regardless of
the put and verify behaviour, since the abort happens before any
fetch or upload.  The hypothesis that every matching key carries the
requested video id reflects the prefix listing (otherwise the source
dies earlier on its `assert video_match.group(1) == youtube_id`). -/
theorem c5_readiness_blocked (yid : String) (fmts : List String) (listing : List SrcKey)
    (now : Int) (put : String → Nat → PutOutcome) (verify : String → Bool)
    (hids : ∀ k ∈ listing, (matchVideoKey k.name).all (fun t => t.1 == yid) = true)
    (hfresh : ∃ k ∈ listing, (matchVideoKey k.name).isSome = true ∧
      is_ready now k.lastModified = false) :
    upload_converted_to_archive yid fmts listing now put verify =
      ⟨.readinessBlocked, [], []⟩ := by
  have hd := discoverKeys_blocked yid now listing hids hfresh
  simp [upload_converted_to_archive, hd]

/-- Witness for C5 at a concrete listing with one too-fresh object. -/
theorem c5_readiness_blocked_witness :
    upload_converted_to_archive "abc" ["mp4"] [⟨"abc.mp4/f1", 7000⟩] 7200
      (fun _ _ => .ok) (fun _ => true) = ⟨.readinessBlocked, [], []⟩ :=
  c5_readiness_blocked "abc" ["mp4"] [⟨"abc.mp4/f1", 7000⟩] 7200
    (fun _ _ => .ok) (fun _ => true) (by decide) (by decide)

theorem runVerify_fst (verify : String → Bool) :
    ∀ l : List String, (runVerify verify l).1 = l.all verify := by
  intro l
  induction l with
  | nil => rfl
  | cons n rest ih =>
    cases h : verify n with
    | false => simp [runVerify, h]
    | true => simp [runVerify, h, ih]

theorem runVerify_calls_of_all (verify : String → Bool) :
    ∀ l : List String, l.all verify = true → (runVerify verify l).2 = l := by
  intro l
  induction l with
  | nil => intro _; rfl
  | cons n rest ih =>
    intro h
    simp only [List.all_cons, Bool.and_eq_true] at h
    simp [runVerify, h.1, ih h.2]

theorem uploadStage_error_result (yid : String) (put : String → Nat → PutOutcome) :
    ∀ (sel : List (String × SrcKey)) (r : TransferOutcome) (names : List String),
      uploadStage yid put sel = (some r, names) →
      r ≠ .success ∧ r ≠ .verificationFailed := by
  intro sel
  induction sel with
  | nil => intro r names h; simp [uploadStage] at h
  | cons p rest ih =>
    intro r names h
    obtain ⟨fmt, k⟩ := p
    simp only [uploadStage] at h
    cases hm : matchVideoKey k.name with
    | none =>
      simp only [hm] at h
      simp only [Prod.mk.injEq, Option.some.injEq] at h
      rw [← h.1]
      exact ⟨by decide, by decide⟩
    | some t =>
      obtain ⟨id, f2, path⟩ := t
      simp only [hm] at h
      split_ifs at h with h1 h2 h3
      · simp only [Prod.mk.injEq, Option.some.injEq] at h
        rw [← h.1]; exact ⟨by decide, by decide⟩
      · simp only [Prod.mk.injEq, Option.some.injEq] at h
        rw [← h.1]; exact ⟨by decide, by decide⟩
      · simp only [Prod.mk.injEq, Option.some.injEq] at h
        rw [← h.1]; exact ⟨by decide, by decide⟩
      · cases hu : (uploadWithRetry (put path)).1 with
        | uploaded =>
          simp only [hu] at h
          rcases hrest : uploadStage yid put rest with ⟨e, ns⟩
          rw [hrest] at h
          simp only [Prod.mk.injEq] at h
          exact ih r ns (by rw [hrest, h.1])
        | serverErrorExhausted =>
          simp only [hu] at h
          simp only [Prod.mk.injEq, Option.some.injEq] at h
          rw [← h.1]; exact ⟨by decide, by decide⟩
        | fatalOther =>
          simp only [hu] at h
          simp only [Prod.mk.injEq, Option.some.injEq] at h
          rw [← h.1]; exact ⟨by decide, by decide⟩

theorem pipeline_shape (yid : String) (fmts : List String) (listing : List SrcKey)
    (now : Int) (put : String → Nat → PutOutcome) (verify : String → Bool) :
    (∃ names, upload_converted_to_archive yid fmts listing now put verify =
        ⟨if names.all verify then .success else .verificationFailed, names,
          (runVerify verify names).2⟩) ∨
    ((upload_converted_to_archive yid fmts listing now put verify).result ≠ .success ∧
     (upload_converted_to_archive yid fmts listing now put verify).result ≠
       .verificationFailed) := by
  unfold upload_converted_to_archive
  cases hd : discoverKeys yid now listing with
  | blocked =>
    right
    refine ⟨?_, ?_⟩ <;> simp
  | assertFail =>
    right
    refine ⟨?_, ?_⟩ <;> simp
  | ok pairs =>
    by_cases hall : fmts.all (fun f => !(keysForFormat pairs f).isEmpty) = true
    · simp only [hall, if_true]
      rcases hup : uploadStage yid put
          (fmts.flatMap fun f => (keysForFormat pairs f).map fun k => (f, k)) with ⟨e, names⟩
      cases e with
      | some r =>
        right
        have hne := uploadStage_error_result yid put _ r names hup
        constructor
        · simp only [hup]
          exact hne.1
        · simp only [hup]
          exact hne.2
      | none =>
        left
        refine ⟨names, ?_⟩
        simp only [hup]
        rw [runVerify_fst]
    · right
      refine ⟨?_, ?_⟩ <;> simp [hall]

/-- Claim C3 counterexample: with two transferred objects where the
first fails verification, the run transfers f1 and f2 (uploaded has 2
entries) but invokes verification only once (on f1) before returning
VerificationFailed — so verification is NOT invoked exactly once per
transferred object. -/
theorem c3_counterexample :
    upload_converted_to_archive "abc" ["mp4"] [⟨"abc.mp4/f1", 0⟩, ⟨"abc.mp4/f2", 0⟩] 7200
      (fun _ _ => .ok) (fun n => n != "f1") =
      ⟨.verificationFailed, ["f1", "f2"], ["f1"]⟩ ∧
    (1 : Nat) ≠ 2 := by
  exact ⟨by decide, by decide⟩

/-- Claim C3 as amended: after the propagation delay verification is
invoked once per transferred object up to and including the first
failure (exactly once per object when all verify), and the per-video-id
result is Success iff every transferred object verifies; otherwise it
is VerificationFailed, distinguishable from Success. -/
theorem c3_verification_amended (yid : String) (fmts : List String) (listing : List SrcKey)
    (now : Int) (put : String → Nat → PutOutcome) (verify : String → Bool)
    (h : (upload_converted_to_archive yid fmts listing now put verify).result = .success ∨
         (upload_converted_to_archive yid fmts listing now put verify).result =
           .verificationFailed) :
    ((upload_converted_to_archive yid fmts listing now put verify).result = .success ↔
      ∀ n ∈ (upload_converted_to_archive yid fmts listing now put verify).uploaded,
        verify n = true) ∧
    ((∀ n ∈ (upload_converted_to_archive yid fmts listing now put verify).uploaded,
        verify n = true) →
      (upload_converted_to_archive yid fmts listing now put verify).verifyCalls =
        (upload_converted_to_archive yid fmts listing now put verify).uploaded) := by
  rcases pipeline_shape yid fmts listing now put verify with ⟨names, heq⟩ | ⟨h1, h2⟩
  · rw [heq]
    by_cases hb : names.all verify = true
    · constructor
      · simp [hb]
        intro n hn
        exact List.all_eq_true.mp hb n hn
      · intro _
        simp [runVerify_calls_of_all verify names hb]
    · constructor
      · simp only [hb, if_false]
        constructor
        · intro hf; exact absurd hf (by decide)
        · intro hf
          exact absurd (List.all_eq_true.mpr hf) hb
      · intro hf
        exact absurd (List.all_eq_true.mpr (by simpa using hf)) hb
  · rcases h with h | h
    · exact absurd h h1
    · exact absurd h h2

/-- Witness for the amended C3 at a concrete all-verifying run. -/
theorem c3_verification_amended_witness :
    (upload_converted_to_archive "w" ["mp4"] [⟨"w.mp4/g1", 0⟩] 7200 (fun _ _ => .ok)
      (fun _ => true)).verifyCalls =
    (upload_converted_to_archive "w" ["mp4"] [⟨"w.mp4/g1", 0⟩] 7200 (fun _ _ => .ok)
      (fun _ => true)).uploaded :=
  (c3_verification_amended "w" ["mp4"] [⟨"w.mp4/g1", 0⟩] 7200 (fun _ _ => .ok)
    (fun _ => true) (Or.inl (by decide))).2 (by decide)

theorem dictLookup_insert_self (k : String) (v : Finset String) :
    ∀ l, dictLookup k (dictInsert k v l) = some v := by
  intro l
  induction l with
  | nil => simp [dictInsert, dictLookup]
  | cons p rest ih =>
    obtain ⟨k0, v0⟩ := p
    by_cases h : k0 = k
    · simp [dictInsert, dictLookup, h]
    · simp [dictInsert, dictLookup, h, ih]

theorem dictLookup_insert_ne (k k' : String) (v : Finset String) (h : k' ≠ k) :
    ∀ l, dictLookup k (dictInsert k' v l) = dictLookup k l := by
  intro l
  induction l with
  | nil => simp [dictInsert, dictLookup, h]
  | cons p rest ih =>
    obtain ⟨k0, v0⟩ := p
    by_cases h0 : k0 = k'
    · subst h0
      simp [dictInsert, dictLookup, h]
    · by_cases hk : k0 = k
      · simp [dictInsert, dictLookup, h0, hk, Ne.symm h]
      · simp [dictInsert, dictLookup, h0, hk, ih]

theorem dictLookup_foldl_videos (required : Finset String) (names : List String) (id : String) :
    ∀ (vids : List (Option String)) (acc : List (String × Finset String)),
      dictLookup id (vids.foldl (stepVideo required names) acc) =
        if some id ∈ vids then some (missingFor required names id) else dictLookup id acc := by
  intro vids
  induction vids with
  | nil => intro acc; simp
  | cons v rest ih =>
    intro acc
    cases v with
    | none =>
      simp only [List.foldl_cons, stepVideo, ih]
      simp
    | some j =>
      simp only [List.foldl_cons, stepVideo]
      rw [ih]
      by_cases hm : some id ∈ rest
      · simp [hm]
      · by_cases hj : j = id
        · subst hj
          simp [hm, dictLookup_insert_self]
        · have hj2 : ¬id = j := fun he => hj (Eq.symm he)
          rw [dictLookup_insert_ne id j _ hj]
          simp [hm, hj2]

theorem dictLookup_foldl_library (required : Finset String) (names : List String) (id : String) :
    ∀ (library : List (List (Option String))) (acc : List (String × Finset String)),
      dictLookup id (library.foldl (fun a vids => vids.foldl (stepVideo required names) a) acc) =
        if ∃ vids ∈ library, some id ∈ vids then some (missingFor required names id)
        else dictLookup id acc := by
  intro library
  induction library with
  | nil => intro acc; simp
  | cons pl rest ih =>
    intro acc
    simp only [List.foldl_cons]
    rw [ih]
    by_cases hm : ∃ vids ∈ rest, some id ∈ vids
    · simp [hm]
    · rw [dictLookup_foldl_videos]
      by_cases hp : some id ∈ pl
      · simp [hm, hp]
      · simp [hm, hp]

theorem convertedFormatsList_eq_nil (names : List String) (id : String)
    (habs : ∀ k ∈ names, formatForId id k = none) :
    convertedFormatsList names id = [] := by
  induction names with
  | nil => rfl
  | cons k rest ih =>
    have h1 := habs k (List.mem_cons_self k rest)
    have h2 := ih (fun k' h' => habs k' (List.mem_cons_of_mem k h'))
    simp only [convertedFormatsList, List.filterMap_cons, h1]
    simpa [convertedFormatsList] using h2

/-- Claim C7: a video id appearing in the catalog but with no entry in
the inventory (no listed key contributes a format for it) is mapped to
the full required format set by list_missing_converted_formats; the
defaultdict lookup of the absent id acts as the empty set, not as an
error. -/
theorem c7_absent_inventory (required : Finset String) (names : List String)
    (library : List (List (Option String))) (id : String)
    (hmem : ∃ vids ∈ library, some id ∈ vids)
    (habs : ∀ k ∈ names, formatForId id k = none) :
    dictLookup id (list_missing_converted_formats required names library) = some required := by
  unfold list_missing_converted_formats
  rw [dictLookup_foldl_library]
  rw [if_pos hmem]
  unfold missingFor convertedFormatSet
  rw [convertedFormatsList_eq_nil names id habs]
  simp

/-- Witness for C7 at a concrete catalog and inventory. -/
theorem c7_absent_inventory_witness :
    dictLookup "v1" (list_missing_converted_formats {"mp4", "m3u8"} ["other.mp4/x"]
      [[some "v1", none]]) = some {"mp4", "m3u8"} :=
  c7_absent_inventory {"mp4", "m3u8"} ["other.mp4/x"] [[some "v1", none]] "v1"
    (by decide) (by decide)

theorem foldl_stepVideo_filter (required : Finset String) (names : List String) :
    ∀ (vids : List (Option String)) (acc : List (String × Finset String)),
      vids.foldl (stepVideo required names) acc =
        (vids.filter (fun v => v.isSome)).foldl (stepVideo required names) acc := by
  intro vids
  induction vids with
  | nil => intro acc; rfl
  | cons v rest ih =>
    intro acc
    cases v with
    | none => simp [stepVideo, ih]
    | some j => simp [stepVideo, ih]

/-- Claim C10: a catalog video with no youtube-style id contributes no
entry to the mapping returned by list_missing_converted_formats:
filtering those videos out of the catalog leaves the result unchanged
(and the function is total — no error). -/
theorem c10_no_youtube_id_skipped (required : Finset String) (names : List String)
    (library : List (List (Option String))) :
    list_missing_converted_formats required names library =
      list_missing_converted_formats required names
        (library.map (fun vids => vids.filter (fun v => v.isSome))) := by
  unfold list_missing_converted_formats
  rw [List.foldl_map]
  have hfun : (fun (a : List (String × Finset String)) (vids : List (Option String)) =>
        vids.foldl (stepVideo required names) a) =
      (fun a vids => (vids.filter (fun v => v.isSome)).foldl (stepVideo required names) a) := by
    funext a vids
    exact foldl_stepVideo_filter required names vids a
  rw [hfun]

theorem matchLegacyKeyList_wf (yid : String) (h1 : yid.toList ≠ [])
    (h2 : ∀ c ∈ yid.toList, isWordDash c = true) (rest : List Char)
    (hnl : ∀ c ∈ rest, ¬c = '\n') :
    matchLegacyKeyList (yid.toList ++ '/' :: rest) = some (yid.toList, rest) := by
  have hb : ∀ c ∈ rest, (!(c == '\n')) = true := by
    intro c hc
    simpa using hnl c hc
  have htw : (yid.toList ++ '/' :: rest).takeWhile isWordDash = yid.toList :=
    takeWhile_append_stop _ _ _ h2 (by decide)
  have hdw : (yid.toList ++ '/' :: rest).dropWhile isWordDash = '/' :: rest :=
    dropWhile_append_stop _ _ _ h2 (by decide)
  have hds : dotStarDollar rest = some rest := by
    simp only [dotStarDollar, takeWhile_of_all rest hb, dropWhile_of_all rest hb]
    simp
  simp only [matchLegacyKeyList, htw, hdw, List.head?_cons, List.tail_cons, hds]
  rw [if_neg h1]
  rw [if_neg (show ¬(some '/' ≠ some '/') by simp)]
  simp

theorem copyLegacyGo_map (yid : String) :
    ∀ keys : List String,
      (∀ k ∈ keys, matchLegacyKey k =
        some (yid, String.mk (k.toList.drop (yid.toList.length + 1)))) →
      copyLegacyGo yid keys = some (keys.map (fun k =>
        BucketOp.copyTo k convertedBucketName
          (yid ++ ".mp4/" ++ String.mk (k.toList.drop (yid.toList.length + 1))) true)) := by
  intro keys
  induction keys with
  | nil => intro _; rfl
  | cons k rest ih =>
    intro h
    have hk := h k (List.mem_cons_self k rest)
    have hrest := ih (fun k' h' => h k' (List.mem_cons_of_mem k h'))
    simp only [copyLegacyGo, hk, hrest]
    simp

theorem copyLegacyGo_some_match (yid : String) :
    ∀ (keys : List String) (ops : List BucketOp),
      copyLegacyGo yid keys = some ops →
      ∀ k ∈ keys, ∃ rel, matchLegacyKey k = some (yid, rel) := by
  intro keys
  induction keys with
  | nil => intro ops _ k hk; simp at hk
  | cons k0 rest ih =>
    intro ops h k hk
    simp only [copyLegacyGo] at h
    cases hm : matchLegacyKey k0 with
    | none => simp only [hm] at h; simp at h
    | some t =>
      obtain ⟨id, rel⟩ := t
      simp only [hm] at h
      by_cases hid : id = yid
      · rcases List.mem_cons.mp hk with heq | hkr
        · subst heq
          exact ⟨rel, by rw [hm, hid]⟩
        · rw [if_neg (by simp [hid])] at h
          rcases hrec : copyLegacyGo yid rest with _ | ops'
          · rw [hrec] at h; simp at h
          · exact ih ops' hrec k hkr
      · rw [if_pos (by simp [hid])] at h
        simp at h

/-- Claim C8: with a well-formed video id and newline-free keys, the
legacy migration copies (never deletes) every object under the legacy
video_id/ prefix to <video_id>.mp4/<relative_path> in the same bucket
with preserve_acl set; and whenever the run completes (no
AssertionError), every matched key was legacy-shaped with id component
equal to the given video id — the asserted precondition. -/
theorem c8_legacy_copy :
    (∀ (yid : String) (bucketKeys : List String),
      yid.toList ≠ [] → (∀ c ∈ yid.toList, isWordDash c = true) →
      (∀ k ∈ bucketKeys, ∀ c ∈ k.toList, ¬c = '\n') →
      copy_legacy_content_to_new_location yid bucketKeys =
        some ((bucketKeys.filter (fun k => ((yid ++ "/").toList).isPrefixOf k.toList)).map
          (fun k => BucketOp.copyTo k convertedBucketName
            (yid ++ ".mp4/" ++ String.mk (k.toList.drop (yid.toList.length + 1))) true))) ∧
    (∀ (yid : String) (bucketKeys : List String) (ops : List BucketOp),
      copy_legacy_content_to_new_location yid bucketKeys = some ops →
      ∀ k ∈ bucketKeys.filter (fun k => ((yid ++ "/").toList).isPrefixOf k.toList),
        ∃ rel, matchLegacyKey k = some (yid, rel)) := by
  constructor
  · intro yid bucketKeys h1 h2 hnl
    unfold copy_legacy_content_to_new_location
    apply copyLegacyGo_map
    intro k hk
    have hkmem : k ∈ bucketKeys := List.mem_of_mem_filter hk
    have hpre : ((yid ++ "/").toList).isPrefixOf k.toList = true := by
      have := List.of_mem_filter hk
      simpa using this
    have hpre2 : (yid ++ "/").toList <+: k.toList :=
      List.isPrefixOf_iff_prefix.mp hpre
    obtain ⟨t, ht⟩ := hpre2
    have hsplit : (yid ++ "/").toList = yid.toList ++ ['/'] := by
      simp [String.toList, String.data_append]
    rw [hsplit] at ht
    have hk2 : k.toList = yid.toList ++ '/' :: t := by
      rw [← ht]; simp
    have hnlt : ∀ c ∈ t, ¬c = '\n' := by
      intro c hc
      exact hnl k hkmem c (by rw [hk2]; simp [hc])
    have hdrop : k.toList.drop (yid.toList.length + 1) = t := by
      rw [hk2]
      have hgrp : yid.toList ++ '/' :: t = (yid.toList ++ ['/']) ++ t := by simp
      rw [hgrp]
      have hlen : (yid.toList ++ ['/']).length = yid.toList.length + 1 := by simp
      rw [← hlen, List.drop_left]
    unfold matchLegacyKey
    rw [hdrop]
    rw [hk2, matchLegacyKeyList_wf yid h1 h2 t hnlt]
    simp [string_mk_toList]
  · intro yid bucketKeys ops h k hk
    exact copyLegacyGo_some_match yid _ ops h k hk

/-- Witness for C8 at a concrete legacy key. -/
theorem c8_legacy_copy_witness :
    copy_legacy_content_to_new_location "abc" ["abc/file.mp4"] =
      some [BucketOp.copyTo "abc/file.mp4" convertedBucketName "abc.mp4/file.mp4" true] := by
  have h := c8_legacy_copy.1 "abc" ["abc/file.mp4"] (by decide) (by decide) (by decide)
  rw [h]
  decide

end S3
